import Mathlib

/-!
Verification development for the langfilter track-selection engine.

This file gives a shallow embedding of the parts of the program that the
claims are about:

- the track data model (`parser.py`, dataclass `AudioTrack`);
- the rule set and its application (`config.py`, class `LangFilterConfig`:
  `apply_defaults`, `apply_subtitle_defaults`, `find_default_audio_track`,
  `find_default_subtitle_track`, `has_rules`);
- the interactive session state machine (`interactive.py`:
  `_parse_default_track_selection`, `_parse_track_selection`,
  `select_tracks_to_keep`, `select_subtitle_tracks_to_keep`), with the
  user's input modelled as a list of events (a typed line, an interrupt
  signal, or an end-of-input condition);
- the batch orchestrator (`main.py`: `analyze_and_select_tracks`,
  `main`), restricted to input files whose subtitle-track list is empty,
  so that exactly one interactive session runs per file;
- the remux command construction (`processor.py`,
  `remove_unwanted_tracks`), together with the positional-parameter lists
  of that function and of its call site in `main.py`.

Python strings are modelled as `List Char`; the `int` builtin, `str.strip`,
`str.lower` and `str.split` are modelled by `pyInt`, `pyStrip`, `canon`
and `pySplitWs` (sign handling and whitespace trimming as in Python;
underscore digit separators are not modelled). Python sets of indices are
modelled as `Finset Nat`, sets of language tags as `List String` with
membership, and fallible parses return `Option` or `Except`.
-/

/-- Embeds the dataclass `AudioTrack` from `parser.py`. The spec (section 3)
states that the subtitle variant shares this exact shape; `parser.py` in the
snapshot has no `SubtitleTrack` class, so the same structure stands for both
kinds. `language` is `none` when the backend reported no language. -/
structure AudioTrack where
  track_number : Nat
  mkvmerge_id : Nat
  language : Option String
  name : Option String
  codec : Option String
  channels : Option Nat
deriving DecidableEq, Repr

/-- Modelled from the spec: `parser.py` in the snapshot defines no
`SubtitleTrack` dataclass although `main.py` and `interactive.py` import it;
spec section 3 says the two track variants share the same shape. -/
abbrev SubtitleTrack := AudioTrack

/-- Embeds the configuration object of `config.py` (`LangFilterConfig`):
four language sets and two optional default languages. Python sets of
strings are modelled as lists with membership. -/
structure LangFilterConfig where
  keep_languages : List String
  remove_languages : List String
  keep_subtitle_languages : List String
  remove_subtitle_languages : List String
  default_audio_language : Option String
  default_subtitle_language : Option String
deriving DecidableEq, Repr

/-- Models the Python method `str.lower()`: lowercase every character
(ASCII case mapping, as in `Char.toLower`). -/
def pyLower (s : String) : String :=
  ⟨s.data.map Char.toLower⟩

/-- Normalized language of a track: `(track.language or "unknown").lower()`
as computed in `config.py`. -/
def normLang (language : Option String) : String :=
  pyLower (language.getD ("unknown"))

/-- The loop body shared by `apply_defaults` and `apply_subtitle_defaults`
in `config.py`: walk the tracks with their indices (starting at `i`) and
collect the indices marked for removal by the keep rule or the remove rule. -/
def applyRulesAux (keep remove : List String) : Nat → List AudioTrack → Finset Nat
  | _, [] => ∅
  | i, t :: ts =>
    let lang := normLang t.language
    let rest := applyRulesAux keep remove (i + 1) ts
    let rest2 := if keep ≠ [] ∧ lang ∉ keep then insert i rest else rest
    if remove ≠ [] ∧ lang ∈ remove then insert i rest2 else rest2

/-- Embeds `LangFilterConfig.apply_defaults` from `config.py`: returns the
set of audio-track indices to remove. -/
def apply_defaults (config : LangFilterConfig) (tracks : List AudioTrack) : Finset Nat :=
  applyRulesAux config.keep_languages config.remove_languages 0 tracks

/-- Embeds `LangFilterConfig.apply_subtitle_defaults` from `config.py`. -/
def apply_subtitle_defaults (config : LangFilterConfig) (tracks : List SubtitleTrack) : Finset Nat :=
  applyRulesAux config.keep_subtitle_languages config.remove_subtitle_languages 0 tracks

/-- Embeds `LangFilterConfig.find_default_audio_track` from `config.py`:
first track whose normalized language equals the configured default audio
language, or none. -/
def find_default_audio_track (config : LangFilterConfig) (tracks : List AudioTrack) :
    Option AudioTrack :=
  match config.default_audio_language with
  | none => none
  | some lang => tracks.find? (fun t => normLang t.language == lang)

/-- Embeds `LangFilterConfig.find_default_subtitle_track` from `config.py`. -/
def find_default_subtitle_track (config : LangFilterConfig) (tracks : List SubtitleTrack) :
    Option SubtitleTrack :=
  match config.default_subtitle_language with
  | none => none
  | some lang => tracks.find? (fun t => normLang t.language == lang)

/-- Embeds `LangFilterConfig.has_rules` from `config.py`: true iff any of
the four language sets is non-empty. -/
def has_rules (config : LangFilterConfig) : Bool :=
  !config.keep_languages.isEmpty || !config.remove_languages.isEmpty ||
    !config.keep_subtitle_languages.isEmpty || !config.remove_subtitle_languages.isEmpty

/-- The `config is None or not config.has_rules()` test of `main.py`
(lines 111 and 408), as a function of the optional configuration. -/
def hasRulesOpt (config : Option LangFilterConfig) : Bool :=
  match config with
  | none => false
  | some c => has_rules c

/-- The list comprehension
`[track for i, track in enumerate(tracks) if i not in tracks_to_remove]`
used throughout `interactive.py` and `main.py`, walking the list with an
index counter starting at `i`. -/
def keptAux (tracks_to_remove : Finset Nat) : Nat → List AudioTrack → List AudioTrack
  | _, [] => []
  | i, t :: ts =>
    if i ∈ tracks_to_remove then keptAux tracks_to_remove (i + 1) ts
    else t :: keptAux tracks_to_remove (i + 1) ts

/-- Kept sublist of `tracks` for a removal set (indices counted from 0). -/
def keptOf (tracks : List AudioTrack) (tracks_to_remove : Finset Nat) : List AudioTrack :=
  keptAux tracks_to_remove 0 tracks

/-- Embeds `select_tracks_non_interactive` from `interactive.py` (the
returned value; printing is presentation only). -/
def select_tracks_non_interactive (tracks : List AudioTrack) (config : LangFilterConfig) :
    List AudioTrack :=
  if !has_rules config then tracks
  else keptOf tracks (apply_defaults config tracks)

/-- Embeds `select_subtitle_tracks_non_interactive` from `interactive.py`. -/
def select_subtitle_tracks_non_interactive (tracks : List SubtitleTrack)
    (config : LangFilterConfig) : List SubtitleTrack :=
  if config.keep_subtitle_languages.isEmpty && config.remove_subtitle_languages.isEmpty then tracks
  else keptOf tracks (apply_subtitle_defaults config tracks)

/-- Removal condition for one track, following the words of the spec
(section 4.1): marked iff the keep set is non-empty and the normalized
language is not in it, or the remove set is non-empty and the normalized
language is in it. Used to state the claim that `apply_defaults` returns
exactly this set of indices. -/
def markedForRemoval (keep remove : List String) (t : AudioTrack) : Bool :=
  (!keep.isEmpty && !(keep.contains (normLang t.language))) ||
    (!remove.isEmpty && remove.contains (normLang t.language))

/-- The removal set described by the spec's words: all indices `i` of the
track list whose track satisfies `markedForRemoval`. -/
def applyDefaultsSpec (keep remove : List String) (tracks : List AudioTrack) : Finset Nat :=
  (Finset.range tracks.length).filter
    (fun i => (tracks.get? i).any (fun t => markedForRemoval keep remove t))

/-- Proposition form of the marking condition, as written in the two `if`
tests of `apply_defaults`. -/
def MarkedP (keep remove : List String) (t : AudioTrack) : Prop :=
  (keep ≠ [] ∧ normLang t.language ∉ keep) ∨ (remove ≠ [] ∧ normLang t.language ∈ remove)

/-- Models the Python method `str.strip()` on a string seen as a character
list: drop whitespace from both ends. -/
def pyStrip (l : List Char) : List Char :=
  ((l.dropWhile Char.isWhitespace).reverse.dropWhile Char.isWhitespace).reverse

/-- The canonical form `input().strip().lower()` applied to every line read
by the interactive sessions of `interactive.py`. -/
def canon (s : String) : List Char :=
  (pyStrip s.toList).map Char.toLower

/-- Accumulator loop for `pySplitWs`: `acc` holds the characters of the
chunk being built, in reverse. -/
def pySplitWsAux : List Char → List Char → List (List Char)
  | [], acc => if acc = [] then [] else [acc.reverse]
  | c :: cs, acc =>
    if c.isWhitespace then
      if acc = [] then pySplitWsAux cs []
      else acc.reverse :: pySplitWsAux cs []
    else pySplitWsAux cs (c :: acc)

/-- Models the Python method `str.split()` with no argument: split on runs
of whitespace, producing no empty chunks. -/
def pySplitWs (l : List Char) : List (List Char) :=
  pySplitWsAux l []

/-- Digit-string value for `pyInt`: all characters must be decimal digits
and the string must be non-empty. -/
def digitsToNat (l : List Char) : Option Nat :=
  if l = [] then none
  else if l.all Char.isDigit then
    some (l.foldl (fun a c => a * 10 + (c.toNat - 48)) 0)
  else none

/-- Models the Python builtin `int(s)`: surrounding whitespace is ignored,
an optional sign is accepted, anything else raises `ValueError` (modelled as
`none`); underscore digit separators are not modelled. -/
def pyInt (l : List Char) : Option Int :=
  match pyStrip l with
  | [] => none
  | c :: rest =>
    if c = '-' then (digitsToNat rest).map (fun n => -(n : Int))
    else if c = '+' then (digitsToNat rest).map (fun n => (n : Int))
    else (digitsToNat (c :: rest)).map (fun n => (n : Int))

/-- Embeds `_parse_default_track_selection` from `interactive.py`: an input
starting with the character d followed by an integer N with 1 ≤ N ≤
`max_tracks` yields the 0-based index N − 1; anything else yields none. -/
def parseDefaultTrackSelection (input : List Char) (max_tracks : Nat) : Option Nat :=
  match input with
  | 'd' :: rest =>
    match pyInt rest with
    | some k => if 1 ≤ k ∧ k ≤ (max_tracks : Int) then some (k - 1).toNat else none
    | none => none
  | _ => none

/-- The 0-based indices appended for a validated range `a-b` (`for track_num
in range(start, end + 1)` in `_parse_track_selection`). -/
def rangeIndices (a b : Int) : List Nat :=
  (List.range (b - a + 1).toNat).map (fun k => (a - 1).toNat + k)

/-- Embeds the per-token branch of `_parse_track_selection` from
`interactive.py`: a token containing a hyphen is split once at the first
hyphen and both bounds are parsed and range-checked; any other token is
parsed as a single 1-based number. On failure the offending token is the
error value (the function prints it and returns failure). -/
def parseOnePart (part : List Char) (max_tracks : Nat) : Except (List Char) (List Nat) :=
  if part.contains '-' then
    match pyInt (part.takeWhile (fun c => c != '-')),
        pyInt ((part.dropWhile (fun c => c != '-')).drop 1) with
    | some s, some e =>
      if s < 1 ∨ e < 1 ∨ s > (max_tracks : Int) ∨ e > (max_tracks : Int) then Except.error part
      else if s > e then Except.error part
      else Except.ok (rangeIndices s e)
    | _, _ => Except.error part
  else
    match pyInt part with
    | some v =>
      if 1 ≤ v ∧ v ≤ (max_tracks : Int) then Except.ok [(v - 1).toNat]
      else Except.error part
    | none => Except.error part

/-- Embeds `_parse_track_selection` from `interactive.py`: parse the tokens
left to right, concatenating their indices; the first failing token aborts
the whole parse and is reported. -/
def parseTrackSelection (parts : List (List Char)) (max_tracks : Nat) :
    Except (List Char) (List Nat) :=
  match parts with
  | [] => Except.ok []
  | p :: ps =>
    match parseOnePart p max_tracks with
    | Except.error e => Except.error e
    | Except.ok ids =>
      match parseTrackSelection ps max_tracks with
      | Except.error e => Except.error e
      | Except.ok rest => Except.ok (ids ++ rest)

/-- Validity of one selection token in the words of the spec: every bound is
an integer in the range 1 to `max_tracks`, and a range's start does not
exceed its end. -/
def validToken (max_tracks : Nat) (part : List Char) : Bool :=
  if part.contains '-' then
    match pyInt (part.takeWhile (fun c => c != '-')),
        pyInt ((part.dropWhile (fun c => c != '-')).drop 1) with
    | some s, some e =>
      decide (1 ≤ s) && decide (s ≤ (max_tracks : Int)) && decide (1 ≤ e) &&
        decide (e ≤ (max_tracks : Int)) && decide (s ≤ e)
    | _, _ => false
  else
    match pyInt part with
    | some v => decide (1 ≤ v) && decide (v ≤ (max_tracks : Int))
    | none => false

/-- Mutable state of one interactive session in `interactive.py`
(`select_tracks_to_keep` / `select_subtitle_tracks_to_keep`): the set of
0-based indices selected for removal and the tentative default index. -/
structure SessState where
  tracks_to_remove : Finset Nat
  current_default : Option Nat
deriving DecidableEq

/-- Result of handling one input line inside the session loop: the quit
command raises `UserCancelledError`, the next command breaks out of the
loop, every other line continues the loop with an updated state. -/
inductive CmdOutcome where
  | quit
  | next
  | cont (s : SessState)
deriving DecidableEq

/-- One iteration of the toggle loop in `select_tracks_to_keep` (lines
247 to 254): remove the index if it is selected, otherwise add it and clear
the tentative default when the added index was the default. -/
def toggleOne (s : SessState) (index : Nat) : SessState :=
  if index ∈ s.tracks_to_remove then
    { tracks_to_remove := s.tracks_to_remove.erase index,
      current_default := s.current_default }
  else
    { tracks_to_remove := insert index s.tracks_to_remove,
      current_default := if s.current_default = some index then none else s.current_default }

/-- The `for index in track_indices` toggle loop applied left to right. -/
def toggleAll (s : SessState) (indices : List Nat) : SessState :=
  indices.foldl toggleOne s

/-- The part of the session loop body of `interactive.py` that runs after
the quit, next, clear and empty-input commands have been dispatched: try
the default-track command, then the toggle tokens. A failed or empty toggle
parse leaves the state unchanged. -/
def processSelection (max_tracks : Nat) (s : SessState) (input : List Char) : CmdOutcome :=
  match parseDefaultTrackSelection input max_tracks with
  | some default_idx =>
    if default_idx ∈ s.tracks_to_remove then CmdOutcome.cont s
    else CmdOutcome.cont { tracks_to_remove := s.tracks_to_remove,
                           current_default := some default_idx }
  | none =>
    match parseTrackSelection (pySplitWs input) max_tracks with
    | Except.error _ => CmdOutcome.cont s
    | Except.ok track_indices =>
      if track_indices = [] then CmdOutcome.cont s
      else CmdOutcome.cont (toggleAll s track_indices)

/-- Handling of one canonicalized input line by the session loop of
`interactive.py` (both sessions run the identical dispatch). -/
def processCanon (max_tracks : Nat) (s : SessState) (input : List Char) : CmdOutcome :=
  if input = ['q'] ∨ input = ['q', 'u', 'i', 't'] then CmdOutcome.quit
  else if input = ['n'] ∨ input = ['n', 'e', 'x', 't'] then CmdOutcome.next
  else if input = ['c'] then CmdOutcome.cont { tracks_to_remove := ∅, current_default := none }
  else if input = [] then CmdOutcome.cont s
  else processSelection max_tracks s input

/-- Handling of one raw input line: `input("Selection: ").strip().lower()`
then the dispatch above. -/
def processLine (max_tracks : Nat) (s : SessState) (raw : String) : CmdOutcome :=
  processCanon max_tracks s (canon raw)

/-- One event on the interactive input stream: a line of text, a
`KeyboardInterrupt` (Ctrl-C), or an `EOFError` (end of input). -/
inductive Ev where
  | line (s : String)
  | interrupt
  | eof
deriving DecidableEq

/-- Observable outcome of one interactive session. `cancelled` is the
`UserCancelledError` raised by the quit command; `aborted` is the caught
`KeyboardInterrupt`/`EOFError` handler returning an empty selection;
`uncaught` is an interrupt or end of input at the remove-all confirmation
prompt, which the session does not catch; `finished` is the normal return
`(tracks_to_keep, current_default)`, with `asked` recording whether the
remove-all confirmation prompt was issued on the way out. -/
inductive SessOutcome where
  | cancelled
  | aborted
  | uncaught
  | finished (tracks_to_keep : List AudioTrack) (current_default : Option Nat) (asked : Bool)
deriving DecidableEq

/-- The epilogue both sessions share once the loop has been left via the
next command (lines 275 to 307 / 415 to 450): compute the kept tracks,
clear the tentative default if it is marked for removal, and return. The
display-only `default_track_id` lookup does not affect the returned pair. -/
def finalizeSelection (tracks : List AudioTrack) (s : SessState) (asked : Bool) : SessOutcome :=
  let tracks_to_keep := keptOf tracks s.tracks_to_remove
  let current_default :=
    match s.current_default with
    | some i => if i ∈ s.tracks_to_remove then none else some i
    | none => none
  SessOutcome.finished tracks_to_keep current_default asked

/-- Exit path of the audio session `select_tracks_to_keep` (lines 265 to
273): when every track is selected for removal, ask the remove-all
confirmation question, reading one more input line; an answer other than
y/yes returns the empty cancellation result. An interrupt or end of input
at this prompt is not caught by the session. -/
def audioFinish (tracks : List AudioTrack) (s : SessState) (rest : List Ev) : SessOutcome :=
  let tracks_to_keep := keptOf tracks s.tracks_to_remove
  if tracks_to_keep = [] then
    match rest with
    | Ev.line ans :: _ =>
      if canon ans = ['y'] ∨ canon ans = ['y', 'e', 's'] then finalizeSelection tracks s true
      else SessOutcome.finished [] none true
    | _ => SessOutcome.uncaught
  else finalizeSelection tracks s false

/-- The `while True` loop of `select_tracks_to_keep`, consuming events. An
exhausted event stream behaves as an end of input. -/
def audioLoop (tracks : List AudioTrack) (s : SessState) : List Ev → SessOutcome
  | [] => SessOutcome.aborted
  | Ev.interrupt :: _ => SessOutcome.aborted
  | Ev.eof :: _ => SessOutcome.aborted
  | Ev.line raw :: rest =>
    match processLine tracks.length s raw with
    | CmdOutcome.quit => SessOutcome.cancelled
    | CmdOutcome.next => audioFinish tracks s rest
    | CmdOutcome.cont s2 => audioLoop tracks s2 rest

/-- Exit path of the subtitle session `select_subtitle_tracks_to_keep`
(lines 415 to 421): no remove-all confirmation exists in this session; the
selection is finalized directly. -/
def subFinish (tracks : List SubtitleTrack) (s : SessState) : SessOutcome :=
  finalizeSelection tracks s false

/-- The `while True` loop of `select_subtitle_tracks_to_keep`. -/
def subLoop (tracks : List SubtitleTrack) (s : SessState) : List Ev → SessOutcome
  | [] => SessOutcome.aborted
  | Ev.interrupt :: _ => SessOutcome.aborted
  | Ev.eof :: _ => SessOutcome.aborted
  | Ev.line raw :: rest =>
    match processLine tracks.length s raw with
    | CmdOutcome.quit => SessOutcome.cancelled
    | CmdOutcome.next => subFinish tracks s
    | CmdOutcome.cont s2 => subLoop tracks s2 rest

/-- Initial session state of `select_tracks_to_keep` (lines 174 to 193):
the removal set comes from `apply_defaults` when the configuration has
rules; the tentative default comes from `find_default_audio_track` matched
back to an index by `mkvmerge_id` when a default audio language is
configured and a matching track exists, else from the
`default_track_index` parameter. -/
def audioInitState (tracks : List AudioTrack) (config : Option LangFilterConfig)
    (default_track_index : Option Nat) : SessState :=
  let tracks_to_remove :=
    match config with
    | some cfg => if has_rules cfg then apply_defaults cfg tracks else ∅
    | none => ∅
  let current_default :=
    match config with
    | some cfg =>
      match cfg.default_audio_language with
      | some _ =>
        match find_default_audio_track cfg tracks with
        | some dt => tracks.findIdx? (fun t => t.mkvmerge_id == dt.mkvmerge_id)
        | none => default_track_index
      | none => default_track_index
    | none => default_track_index
  { tracks_to_remove := tracks_to_remove, current_default := current_default }

/-- Embeds `select_tracks_to_keep` from `interactive.py` with the input
stream made explicit. An empty track list returns immediately. -/
def select_tracks_to_keep (tracks : List AudioTrack) (config : Option LangFilterConfig)
    (default_track_index : Option Nat) (events : List Ev) : SessOutcome :=
  if tracks = [] then SessOutcome.finished [] none false
  else audioLoop tracks (audioInitState tracks config default_track_index) events

/-- Initial session state of `select_subtitle_tracks_to_keep` (lines 324
to 343): the removal set comes from `apply_subtitle_defaults` when either
subtitle language set is non-empty; the tentative default comes from
`find_default_subtitle_track` analogously to the audio session. -/
def subInitState (tracks : List SubtitleTrack) (config : Option LangFilterConfig)
    (default_track_index : Option Nat) : SessState :=
  let tracks_to_remove :=
    match config with
    | some cfg =>
      if !cfg.keep_subtitle_languages.isEmpty || !cfg.remove_subtitle_languages.isEmpty then
        apply_subtitle_defaults cfg tracks
      else ∅
    | none => ∅
  let current_default :=
    match config with
    | some cfg =>
      match cfg.default_subtitle_language with
      | some _ =>
        match find_default_subtitle_track cfg tracks with
        | some dt => tracks.findIdx? (fun t => t.mkvmerge_id == dt.mkvmerge_id)
        | none => default_track_index
      | none => default_track_index
    | none => default_track_index
  { tracks_to_remove := tracks_to_remove, current_default := current_default }

/-- Embeds `select_subtitle_tracks_to_keep` from `interactive.py` with the
input stream made explicit. -/
def select_subtitle_tracks_to_keep (tracks : List SubtitleTrack)
    (config : Option LangFilterConfig) (default_track_index : Option Nat)
    (events : List Ev) : SessOutcome :=
  if tracks = [] then SessOutcome.finished [] none false
  else subLoop tracks (subInitState tracks config default_track_index) events

/-- Embeds the default-track resolution of `analyze_and_select_tracks` in
`main.py` (lines 138 to 148): the session's returned index is looked up in
the pre-filter track list and matched back into the selected list by
`mkvmerge_id`; any failure yields no default. -/
def resolveDefaultTrack (all_tracks selected : List AudioTrack)
    (default_index : Option Nat) : Option AudioTrack :=
  match default_index with
  | none => none
  | some i =>
    match all_tracks.get? i with
    | none => none
    | some original => selected.find? (fun t => t.mkvmerge_id == original.mkvmerge_id)

/-- One input file of the batch as the orchestrator model sees it: its
audio tracks as discovered, and the interactive input events its session
would consume. The model covers files whose subtitle-track list is empty,
so the subtitle blocks of `analyze_and_select_tracks` do not run. -/
structure FileInput where
  audio_tracks : List AudioTrack
  events : List Ev
deriving DecidableEq

/-- Per-file outcome of `analyze_and_select_tracks` in `main.py`:
the `TrackSelectionResult` statuses, with `cancelledErr` for a propagating
`UserCancelledError` and `raisedInterrupt` for an uncaught interrupt. -/
inductive AnalyzeOutcome where
  | cancelledErr
  | raisedInterrupt
  | skippedNoTracks
  | skippedNoSelection
  | skippedAllSelected
  | success (selected : List AudioTrack) (default_track : Option AudioTrack)
deriving DecidableEq

/-- Embeds `analyze_and_select_tracks` from `main.py` for a file with no
subtitle tracks: discovery is already reflected in `f.audio_tracks`; audio
selection runs non-interactively or through the interactive session. -/
def analyzeFile (config : Option LangFilterConfig) (non_interactive : Bool)
    (f : FileInput) : AnalyzeOutcome :=
  if f.audio_tracks = [] then AnalyzeOutcome.skippedNoTracks
  else if non_interactive then
    if !hasRulesOpt config then AnalyzeOutcome.skippedNoSelection
    else
      match config with
      | none => AnalyzeOutcome.skippedNoSelection
      | some cfg =>
        let selected := select_tracks_non_interactive f.audio_tracks cfg
        let default_track := find_default_audio_track cfg selected
        if selected = [] then AnalyzeOutcome.skippedNoSelection
        else if selected.length = f.audio_tracks.length then AnalyzeOutcome.skippedAllSelected
        else AnalyzeOutcome.success selected default_track
  else
    match select_tracks_to_keep f.audio_tracks config none f.events with
    | SessOutcome.cancelled => AnalyzeOutcome.cancelledErr
    | SessOutcome.aborted => AnalyzeOutcome.skippedNoSelection
    | SessOutcome.uncaught => AnalyzeOutcome.raisedInterrupt
    | SessOutcome.finished kept default_index _ =>
      if kept = [] then AnalyzeOutcome.skippedNoSelection
      else
        let default_track := resolveDefaultTrack f.audio_tracks kept default_index
        if kept.length = f.audio_tracks.length then AnalyzeOutcome.skippedAllSelected
        else AnalyzeOutcome.success kept default_track

/-- Outcome of Phase 1 of `main` (lines 428 to 458): cancelled by the quit
command, aborted by an uncaught interrupt, or done with the recorded
selections in file order. -/
inductive Phase1Res where
  | cancelled
  | raisedInterrupt
  | done (selections : List (List AudioTrack × Option AudioTrack))
deriving DecidableEq

/-- Phase 1 of `main`: analyze the files in order; a `UserCancelledError`
returns from `main` immediately, skipped and failed files are recorded and
the loop continues, successful selections are collected for Phase 2. -/
def phase1 (config : Option LangFilterConfig) (non_interactive : Bool) :
    List FileInput → Phase1Res
  | [] => Phase1Res.done []
  | f :: fs =>
    match analyzeFile config non_interactive f with
    | AnalyzeOutcome.cancelledErr => Phase1Res.cancelled
    | AnalyzeOutcome.raisedInterrupt => Phase1Res.raisedInterrupt
    | AnalyzeOutcome.success selected default_track =>
      match phase1 config non_interactive fs with
      | Phase1Res.done selections => Phase1Res.done ((selected, default_track) :: selections)
      | r => r
    | AnalyzeOutcome.skippedNoTracks => phase1 config non_interactive fs
    | AnalyzeOutcome.skippedNoSelection => phase1 config non_interactive fs
    | AnalyzeOutcome.skippedAllSelected => phase1 config non_interactive fs

/-- Outcome of one run of `main` in the orchestrator model.
`validationError` is the pre-Phase-1 exit code 1 for non-interactive mode
without rules; `userCancelled` is the `return 0` on `UserCancelledError`
during Phase 1 (Phase 2 never runs); `completed` carries the selections
that Phase 2 attempts to process, in file order. -/
inductive RunOutcome where
  | validationError
  | userCancelled
  | interruptExit
  | completed (attempted : List (List AudioTrack × Option AudioTrack))
deriving DecidableEq

/-- Embeds the batch flow of `main` in `main.py` (lines 406 to 497): the
non-interactive rules gate runs before Phase 1; then Phase 1 collects
selections; Phase 2 processes exactly the recorded selections. -/
def mainRun (config : Option LangFilterConfig) (non_interactive : Bool)
    (files : List FileInput) : RunOutcome :=
  if non_interactive && !hasRulesOpt config then RunOutcome.validationError
  else
    match phase1 config non_interactive files with
    | Phase1Res.cancelled => RunOutcome.userCancelled
    | Phase1Res.raisedInterrupt => RunOutcome.interruptExit
    | Phase1Res.done selections => RunOutcome.completed selections

/-- The positional parameters of `remove_unwanted_tracks` as defined in
`processor.py` (line 11): input file, audio tracks to keep, optional
output file. -/
def remove_unwanted_tracks_params : List String :=
  [("input_file"), ("tracks_to_keep"), ("output_file")]

/-- The positional arguments passed to `remove_unwanted_tracks` by
`process_file_with_selection` in `main.py` (lines 278 to 285). -/
def process_file_with_selection_call_args : List String :=
  [("filename"), ("selected_tracks"), ("output_path"), ("selected_subtitle_tracks"),
    ("default_audio_track_id"), ("default_subtitle_track_id")]

/-- The mkvmerge command line built by `remove_unwanted_tracks` in
`processor.py` (lines 25 to 39): video track 0 plus the kept audio track
ids, all subtitle tracks copied unconditionally, no default-track flags. -/
def mkvmergeCmd (output_file : String) (tracks_to_keep : List AudioTrack)
    (input_file : String) : List String :=
  [("mkvmerge"), ("-o"), output_file, ("--audio-tracks"),
    ("0,") ++ String.intercalate (",") (tracks_to_keep.map (fun t => toString t.mkvmerge_id)),
    ("--subtitle-tracks"), ("all"), input_file]

/-- Sample track: 1st track, backend id 1, English. -/
def trackEng1 : AudioTrack :=
  { track_number := 1, mkvmerge_id := 1, language := some ("eng"),
    name := none, codec := none, channels := none }

/-- Sample track: 2nd track, backend id 2, Japanese. -/
def trackJpn2 : AudioTrack :=
  { track_number := 2, mkvmerge_id := 2, language := some ("jpn"),
    name := none, codec := none, channels := none }

/-- Sample track: 3rd track, backend id 3, English. -/
def trackEng3 : AudioTrack :=
  { track_number := 3, mkvmerge_id := 3, language := some ("eng"),
    name := none, codec := none, channels := none }

/-- Sample track: 1st track, backend id 5, German. -/
def trackGer5 : AudioTrack :=
  { track_number := 1, mkvmerge_id := 5, language := some ("ger"),
    name := none, codec := none, channels := none }

/-- Sample rule set with only keep-audio eng. -/
def cfgKeepEng : LangFilterConfig :=
  { keep_languages := [("eng")], remove_languages := [],
    keep_subtitle_languages := [], remove_subtitle_languages := [],
    default_audio_language := none, default_subtitle_language := none }

/-- Sample rule set with no rules at all. -/
def cfgEmpty : LangFilterConfig :=
  { keep_languages := [], remove_languages := [],
    keep_subtitle_languages := [], remove_subtitle_languages := [],
    default_audio_language := none, default_subtitle_language := none }

/-- Sample batch file whose session toggles track 1 and proceeds, keeping
the Japanese track. -/
def fileSelect : FileInput :=
  { audio_tracks := [trackEng1, trackJpn2], events := [Ev.line ("1"), Ev.line ("n")] }

/-- Sample batch file whose session is hit by an interrupt signal. -/
def fileInterrupt : FileInput :=
  { audio_tracks := [trackGer5], events := [Ev.interrupt] }

/-- Sample batch file whose session issues the quit command. -/
def fileQuit : FileInput :=
  { audio_tracks := [trackGer5], events := [Ev.line ("q")] }
theorem markedForRemoval_iff (keep remove : List String) (t : AudioTrack) :
    markedForRemoval keep remove t = true ↔ MarkedP keep remove t := by
  simp [markedForRemoval, MarkedP, List.isEmpty_iff]

theorem mem_applyRulesAux (keep remove : List String) (ts : List AudioTrack) :
    ∀ (i x : Nat), x ∈ applyRulesAux keep remove i ts ↔
      ∃ j t, ts.get? j = some t ∧ x = i + j ∧ MarkedP keep remove t := by
  induction ts with
  | nil =>
    intro i x
    simp [applyRulesAux]
  | cons t ts ih =>
    intro i x
    have hsplit : x ∈ applyRulesAux keep remove i (t :: ts) ↔
        (MarkedP keep remove t ∧ x = i) ∨
          x ∈ applyRulesAux keep remove (i + 1) ts := by
      simp only [applyRulesAux, MarkedP]
      by_cases hk : keep ≠ [] ∧ normLang t.language ∉ keep
      · by_cases hr : remove ≠ [] ∧ normLang t.language ∈ remove
        · simp only [if_pos hk, if_pos hr, Finset.mem_insert]
          constructor
          · rintro (rfl | (rfl | hx))
            · exact Or.inl ⟨Or.inl hk, rfl⟩
            · exact Or.inl ⟨Or.inl hk, rfl⟩
            · exact Or.inr hx
          · rintro (⟨_, rfl⟩ | hx)
            · exact Or.inl rfl
            · exact Or.inr (Or.inr hx)
        · simp only [if_pos hk, if_neg hr, Finset.mem_insert]
          constructor
          · rintro (rfl | hx)
            · exact Or.inl ⟨Or.inl hk, rfl⟩
            · exact Or.inr hx
          · rintro (⟨_, rfl⟩ | hx)
            · exact Or.inl rfl
            · exact Or.inr hx
      · by_cases hr : remove ≠ [] ∧ normLang t.language ∈ remove
        · simp only [if_neg hk, if_pos hr, Finset.mem_insert]
          constructor
          · rintro (rfl | hx)
            · exact Or.inl ⟨Or.inr hr, rfl⟩
            · exact Or.inr hx
          · rintro (⟨_, rfl⟩ | hx)
            · exact Or.inl rfl
            · exact Or.inr hx
        · simp only [if_neg hk, if_neg hr]
          constructor
          · intro hx
            exact Or.inr hx
          · rintro (⟨hmark, rfl⟩ | hx)
            · exact absurd hmark (by tauto)
            · exact hx
    rw [hsplit, ih (i + 1) x]
    constructor
    · rintro (⟨hm, rfl⟩ | ⟨j, u, hget, rfl, hu⟩)
      · exact ⟨0, t, by simp, by omega, hm⟩
      · exact ⟨j + 1, u, by simpa using hget, by omega, hu⟩
    · rintro ⟨j, u, hget, rfl, hu⟩
      cases j with
      | zero =>
        simp only [List.get?_cons_zero, Option.some.injEq] at hget
        subst hget
        exact Or.inl ⟨hu, by omega⟩
      | succ j =>
        simp only [List.get?_cons_succ] at hget
        exact Or.inr ⟨j, u, hget, by omega, hu⟩

theorem mem_keptAux (R : Finset Nat) (ts : List AudioTrack) :
    ∀ (i : Nat) (t : AudioTrack), t ∈ keptAux R i ts ↔
      ∃ j u, ts.get? j = some u ∧ u = t ∧ (i + j) ∉ R := by
  induction ts with
  | nil =>
    intro i t
    simp [keptAux]
  | cons u ts ih =>
    intro i t
    by_cases hmem : i ∈ R
    · simp only [keptAux, if_pos hmem]
      rw [ih (i + 1) t]
      constructor
      · rintro ⟨j, v, hget, rfl, hnot⟩
        refine ⟨j + 1, v, by simpa using hget, rfl, ?_⟩
        have heq : i + (j + 1) = i + 1 + j := by omega
        rw [heq]
        exact hnot
      · rintro ⟨j, v, hget, rfl, hnot⟩
        cases j with
        | zero =>
          simp only [Nat.add_zero] at hnot
          exact absurd hmem hnot
        | succ j =>
          simp only [List.get?_cons_succ] at hget
          refine ⟨j, v, hget, rfl, ?_⟩
          have heq : i + (j + 1) = i + 1 + j := by omega
          rw [heq] at hnot
          exact hnot
    · simp only [keptAux, if_neg hmem, List.mem_cons]
      rw [ih (i + 1) t]
      constructor
      · rintro (rfl | ⟨j, v, hget, rfl, hnot⟩)
        · exact ⟨0, t, by simp, rfl, by simpa using hmem⟩
        · refine ⟨j + 1, v, by simpa using hget, rfl, ?_⟩
          have heq : i + (j + 1) = i + 1 + j := by omega
          rw [heq]
          exact hnot
      · rintro ⟨j, v, hget, rfl, hnot⟩
        cases j with
        | zero =>
          simp only [List.get?_cons_zero, Option.some.injEq] at hget
          exact Or.inl hget.symm
        | succ j =>
          simp only [List.get?_cons_succ] at hget
          refine Or.inr ⟨j, v, hget, rfl, ?_⟩
          have heq : i + (j + 1) = i + 1 + j := by omega
          rw [heq] at hnot
          exact hnot


theorem get?_lt_length {l : List AudioTrack} {n : Nat} {a : AudioTrack}
    (h : l.get? n = some a) : n < l.length := by
  by_contra hge
  push_neg at hge
  rw [List.get?_eq_none.mpr hge] at h
  exact Option.noConfusion h

/-- C4: for every track list and rule set, `apply_defaults` returns exactly
the set of indices whose normalized track language violates a non-empty
keep set or matches a non-empty remove set; with keep-audio eng on tracks
eng, jpn, eng the removal set is the second index and the kept tracks are
the first and third in original order. -/
theorem c4_apply_defaults_exact :
    (∀ (config : LangFilterConfig) (tracks : List AudioTrack),
      apply_defaults config tracks =
        applyDefaultsSpec config.keep_languages config.remove_languages tracks) ∧
    apply_defaults cfgKeepEng [trackEng1, trackJpn2, trackEng3] = {1} ∧
    select_tracks_non_interactive [trackEng1, trackJpn2, trackEng3] cfgKeepEng =
      [trackEng1, trackEng3] := by
  refine ⟨?_, by decide, rfl⟩
  intro config tracks
  apply Finset.ext
  intro x
  rw [apply_defaults, mem_applyRulesAux]
  simp only [applyDefaultsSpec, Finset.mem_filter, Finset.mem_range]
  constructor
  · rintro ⟨j, t, hget, rfl, hm⟩
    have hlt : j < tracks.length := get?_lt_length hget
    have hj : 0 + j = j := by omega
    rw [hj]
    refine ⟨hlt, ?_⟩
    rw [hget]
    simpa using (markedForRemoval_iff _ _ _).mpr hm
  · rintro ⟨hlt, hany⟩
    cases hget : tracks.get? x with
    | none =>
      rw [hget] at hany
      simp at hany
    | some t =>
      rw [hget] at hany
      simp only [Option.any_some] at hany
      exact ⟨x, t, hget, by omega, (markedForRemoval_iff _ _ _).mp hany⟩

/-- C9: `apply_defaults` is idempotent: applying it with the same rules to
the kept sublist obtained from its own removal set removes nothing
further. -/
theorem c9_apply_defaults_idempotent :
    ∀ (config : LangFilterConfig) (tracks : List AudioTrack),
      apply_defaults config (keptOf tracks (apply_defaults config tracks)) = ∅ := by
  intro config tracks
  rw [Finset.eq_empty_iff_forall_not_mem]
  intro x hx
  rw [apply_defaults, mem_applyRulesAux] at hx
  obtain ⟨j, t, hget, rfl, hm⟩ := hx
  have ht : t ∈ keptOf tracks (apply_defaults config tracks) := List.get?_mem hget
  rw [keptOf, mem_keptAux] at ht
  obtain ⟨j2, u, hget2, hut, hnot⟩ := ht
  subst hut
  apply hnot
  rw [apply_defaults, mem_applyRulesAux]
  exact ⟨j2, u, hget2, rfl, hm⟩

theorem pySplitWsAux_acc_ne (cs : List Char) :
    ∀ acc, acc ≠ [] →
      ∃ tok rest, pySplitWsAux cs acc = (acc.reverse ++ tok) :: rest := by
  induction cs with
  | nil =>
    intro acc hacc
    exact ⟨[], [], by simp [pySplitWsAux, hacc]⟩
  | cons c cs ih =>
    intro acc hacc
    by_cases hws : c.isWhitespace = true
    · refine ⟨[], pySplitWsAux cs [], ?_⟩
      simp [pySplitWsAux, hws, hacc]
    · obtain ⟨tok, rest, h⟩ := ih (c :: acc) (by simp)
      refine ⟨c :: tok, rest, ?_⟩
      rw [show pySplitWsAux (c :: cs) acc = pySplitWsAux cs (c :: acc) from by
        simp [pySplitWsAux, hws]]
      rw [h, List.reverse_cons, List.append_assoc]
      simp

theorem pySplitWs_cons_not_ws (c : Char) (cs : List Char) (hws : c.isWhitespace = false) :
    ∃ tok rest, pySplitWs (c :: cs) = (c :: tok) :: rest := by
  obtain ⟨tok, rest, h⟩ := pySplitWsAux_acc_ne cs [c] (by simp)
  refine ⟨tok, rest, ?_⟩
  rw [show pySplitWs (c :: cs) = pySplitWsAux cs [c] from by simp [pySplitWs, pySplitWsAux, hws]]
  simpa using h

theorem dropWhile_append_last {p : Char → Bool} {c : Char} (hc : p c = false) :
    ∀ (l : List Char), ∃ w, (l ++ [c]).dropWhile p = w ++ [c] := by
  intro l
  induction l with
  | nil => exact ⟨[], by simp [List.dropWhile_cons, hc]⟩
  | cons a l ih =>
    by_cases ha : p a = true
    · obtain ⟨w, hw⟩ := ih
      exact ⟨w, by simp [List.dropWhile_cons, ha, hw]⟩
    · exact ⟨a :: l, by simp [List.dropWhile_cons, ha]⟩

theorem pyStrip_cons_not_ws {c : Char} (hc : c.isWhitespace = false) (xs : List Char) :
    ∃ ys, pyStrip (c :: xs) = c :: ys := by
  obtain ⟨w, hw⟩ := dropWhile_append_last hc xs.reverse
  refine ⟨w.reverse, ?_⟩
  unfold pyStrip
  rw [show List.dropWhile Char.isWhitespace (c :: xs) = c :: xs from by
    simp [List.dropWhile_cons, hc]]
  rw [List.reverse_cons, hw, List.reverse_append]
  simp

theorem pyInt_cons_none {c : Char} (hws : c.isWhitespace = false)
    (h1 : c ≠ '-') (h2 : c ≠ '+') (h3 : c.isDigit = false) (xs : List Char) :
    pyInt (c :: xs) = none := by
  obtain ⟨ys, hys⟩ := pyStrip_cons_not_ws hws xs
  simp only [pyInt, hys, if_neg h1, if_neg h2]
  simp [digitsToNat, h3]

theorem parseOnePart_cons_error (n : Nat) {c : Char} (xs : List Char)
    (hws : c.isWhitespace = false) (h1 : c ≠ '-') (h2 : c ≠ '+') (h3 : c.isDigit = false) :
    parseOnePart (c :: xs) n = Except.error (c :: xs) := by
  unfold parseOnePart
  by_cases hdash : (c :: xs).contains '-'
  · rw [if_pos hdash]
    have htw : (c :: xs).takeWhile (fun ch => ch != '-') =
        c :: xs.takeWhile (fun ch => ch != '-') := by
      simp [List.takeWhile_cons, h1]
    rw [htw, pyInt_cons_none hws h1 h2 h3]
  · rw [if_neg hdash, pyInt_cons_none hws h1 h2 h3]

theorem parseTrackSelection_head_d (n : Nat) (t : List Char) :
    ∃ e, parseTrackSelection (pySplitWs ('d' :: t)) n = Except.error e := by
  obtain ⟨tok, rest, hsplit⟩ := pySplitWs_cons_not_ws 'd' t (by decide)
  refine ⟨'d' :: tok, ?_⟩
  rw [hsplit]
  have hone : parseOnePart ('d' :: tok) n = Except.error ('d' :: tok) :=
    parseOnePart_cons_error n tok (by decide) (by decide) (by decide) (by decide)
  simp only [parseTrackSelection, hone]

/-- C7: in every session state, an input line starting with the character d
either sets the tentative default to a validated index that is not in the
removal set, leaving the removal set unchanged, or (out-of-range number,
non-number, or index marked for removal) leaves the whole state unchanged;
in particular the input d2 with index 1 in the removal set is rejected with
the state unchanged. A default in the removal set is therefore never
produced by this command. -/
theorem c7_default_command_never_marked :
    (∀ (max_tracks : Nat) (s : SessState) (t : List Char),
      processCanon max_tracks s ('d' :: t) =
        match parseDefaultTrackSelection ('d' :: t) max_tracks with
        | some idx =>
          if idx ∈ s.tracks_to_remove then CmdOutcome.cont s
          else CmdOutcome.cont { tracks_to_remove := s.tracks_to_remove,
                                 current_default := some idx }
        | none => CmdOutcome.cont s) ∧
    processCanon 2 { tracks_to_remove := {1}, current_default := some 0 } (canon ("d2")) =
      CmdOutcome.cont { tracks_to_remove := {1}, current_default := some 0 } := by
  refine ⟨?_, rfl⟩
  intro max_tracks s t
  have hq : ¬('d' :: t = ['q'] ∨ 'd' :: t = ['q', 'u', 'i', 't']) := by
    rintro (h | h) <;> (injection h with h1 _; exact absurd h1 (by decide))
  have hn : ¬('d' :: t = ['n'] ∨ 'd' :: t = ['n', 'e', 'x', 't']) := by
    rintro (h | h) <;> (injection h with h1 _; exact absurd h1 (by decide))
  have hc : ('d' :: t) ≠ ['c'] := by
    intro h
    injection h with h1 _
    exact absurd h1 (by decide)
  have hnil : ('d' :: t) ≠ ([] : List Char) := by simp
  simp only [processCanon, if_neg hq, if_neg hn, if_neg hc, if_neg hnil]
  cases hparse : parseDefaultTrackSelection ('d' :: t) max_tracks with
  | some idx => simp only [processSelection, hparse]
  | none =>
    simp only [processSelection, hparse]
    obtain ⟨e, he⟩ := parseTrackSelection_head_d max_tracks t
    rw [he]

theorem parseOnePart_error_of_invalid (n : Nat) (p : List Char)
    (h : validToken n p = false) : parseOnePart p n = Except.error p := by
  by_cases hdash : p.contains '-'
  · rw [parseOnePart, if_pos hdash]
    rw [validToken, if_pos hdash] at h
    cases h1 : pyInt (p.takeWhile (fun c => c != '-')) with
    | none =>
      cases h2 : pyInt ((p.dropWhile (fun c => c != '-')).drop 1) with
      | none => simp only [h1, h2]
      | some b => simp only [h1, h2]
    | some a =>
      cases h2 : pyInt ((p.dropWhile (fun c => c != '-')).drop 1) with
      | none => simp only [h1, h2]
      | some b =>
        simp only [h1, h2] at h ⊢
        by_cases hC1 : a < 1 ∨ b < 1 ∨ a > (n : Int) ∨ b > (n : Int)
        · rw [if_pos hC1]
        · rw [if_neg hC1]
          by_cases hC2 : a > b
          · rw [if_pos hC2]
          · exfalso
            push_neg at hC1 hC2
            obtain ⟨ha1, hb1, han, hbn⟩ := hC1
            have hval : (decide (1 ≤ a) && decide (a ≤ (n : Int)) && decide (1 ≤ b) &&
                decide (b ≤ (n : Int)) && decide (a ≤ b)) = true := by
              simp only [Bool.and_eq_true, decide_eq_true_eq]
              exact ⟨⟨⟨⟨ha1, han⟩, hb1⟩, hbn⟩, hC2⟩
            rw [h] at hval
            exact Bool.false_ne_true hval
  · rw [parseOnePart, if_neg hdash]
    rw [validToken, if_neg hdash] at h
    cases h1 : pyInt p with
    | none => simp only [h1]
    | some v =>
      simp only [h1] at h ⊢
      by_cases hC : 1 ≤ v ∧ v ≤ (n : Int)
      · exfalso
        have hval : (decide (1 ≤ v) && decide (v ≤ (n : Int))) = true := by
          simp only [Bool.and_eq_true, decide_eq_true_eq]
          exact hC
        rw [h] at hval
        exact Bool.false_ne_true hval
      · rw [if_neg hC]

theorem parseOnePart_ok_of_valid (n : Nat) (p : List Char)
    (h : validToken n p = true) : ∃ l, parseOnePart p n = Except.ok l := by
  by_cases hdash : p.contains '-'
  · rw [validToken, if_pos hdash] at h
    rw [parseOnePart, if_pos hdash]
    cases h1 : pyInt (p.takeWhile (fun c => c != '-')) with
    | none =>
      rw [h1] at h
      cases h2 : pyInt ((p.dropWhile (fun c => c != '-')).drop 1) with
      | none => rw [h2] at h; exact absurd h (by simp)
      | some b => rw [h2] at h; exact absurd h (by simp)
    | some a =>
      cases h2 : pyInt ((p.dropWhile (fun c => c != '-')).drop 1) with
      | none => rw [h1, h2] at h; exact absurd h (by simp)
      | some b =>
        rw [h1, h2] at h
        simp only [Bool.and_eq_true, decide_eq_true_eq] at h
        obtain ⟨⟨⟨⟨ha1, han⟩, hb1⟩, hbn⟩, hab⟩ := h
        simp only [h1, h2]
        rw [if_neg (by omega), if_neg (by omega)]
        exact ⟨rangeIndices a b, rfl⟩
  · rw [validToken, if_neg hdash] at h
    rw [parseOnePart, if_neg hdash]
    cases h1 : pyInt p with
    | none => rw [h1] at h; exact absurd h (by simp)
    | some v =>
      rw [h1] at h
      simp only [Bool.and_eq_true, decide_eq_true_eq] at h
      simp only [h1]
      rw [if_pos h]
      exact ⟨[(v - 1).toNat], rfl⟩

theorem parseTrackSelection_error_of_invalid (n : Nat) :
    ∀ (parts : List (List Char)), (∃ p ∈ parts, validToken n p = false) →
      ∃ q, q ∈ parts ∧ validToken n q = false ∧
        parseTrackSelection parts n = Except.error q := by
  intro parts
  induction parts with
  | nil =>
    rintro ⟨p, hp, _⟩
    exact absurd hp (List.not_mem_nil p)
  | cons p ps ih =>
    rintro ⟨r, hr, hrbad⟩
    by_cases hp : validToken n p = true
    · have hr' : r ∈ ps := by
        rcases List.mem_cons.mp hr with rfl | hmem
        · rw [hp] at hrbad
          exact absurd hrbad (by simp)
        · exact hmem
      obtain ⟨l, hl⟩ := parseOnePart_ok_of_valid n p hp
      obtain ⟨q, hq, hqbad, hqerr⟩ := ih ⟨r, hr', hrbad⟩
      refine ⟨q, List.mem_cons_of_mem p hq, hqbad, ?_⟩
      simp only [parseTrackSelection, hl, hqerr]
    · have hp' : validToken n p = false := by
        cases hb : validToken n p
        · rfl
        · exact absurd hb hp
      refine ⟨p, List.mem_cons_self p ps, hp', ?_⟩
      simp only [parseTrackSelection, parseOnePart_error_of_invalid n p hp']

/-- C6: for every session state and selection-token command, any invalid
token (a bound that does not parse as an integer, a bound outside the range
1 to track count, or a range whose start exceeds its end) makes the token
parser report a failing token and abort the whole command: the parse
returns an error naming an invalid token, and the session handler leaves
the removal set and the tentative default exactly as they were. -/
theorem c6_invalid_token_aborts_command :
    (∀ (max_tracks : Nat) (p : List Char), validToken max_tracks p = false →
      parseOnePart p max_tracks = Except.error p) ∧
    (∀ (max_tracks : Nat) (parts : List (List Char)),
      (∃ p ∈ parts, validToken max_tracks p = false) →
      ∃ q, q ∈ parts ∧ validToken max_tracks q = false ∧
        parseTrackSelection parts max_tracks = Except.error q) ∧
    (∀ (max_tracks : Nat) (s : SessState) (input e : List Char),
      parseDefaultTrackSelection input max_tracks = none →
      parseTrackSelection (pySplitWs input) max_tracks = Except.error e →
      processSelection max_tracks s input = CmdOutcome.cont s) := by
  refine ⟨parseOnePart_error_of_invalid, parseTrackSelection_error_of_invalid, ?_⟩
  intro max_tracks s input e hd he
  simp only [processSelection, hd, he]

/-- Witness for C6 at a concrete rejected command: the token 9 on a 3-track
list is invalid and the session handler returns the state unchanged. -/
theorem c6_witness :
    parseOnePart (['9']) 3 = Except.error (['9']) ∧
    processSelection 3 { tracks_to_remove := {0}, current_default := some 1 } (['9']) =
      CmdOutcome.cont { tracks_to_remove := {0}, current_default := some 1 } :=
  ⟨c6_invalid_token_aborts_command.1 3 (['9']) (by decide),
   c6_invalid_token_aborts_command.2.2 3
     { tracks_to_remove := {0}, current_default := some 1 } (['9']) (['9'])
     (by rfl) (by rfl)⟩

/-- C10: toggling the same index twice in one selection command restores
the removal set, but when that index was the tentative default and was not
already marked, the first toggle clears the default and the second does not
restore it, so the full pair is not always restored; concretely the input
1 1 with default index 0 leaves the removal set empty and the default
cleared. -/
theorem c10_double_toggle_clears_default :
    (∀ (s : SessState) (i : Nat),
      (toggleAll s [i, i]).tracks_to_remove = s.tracks_to_remove ∧
      (s.current_default = some i → i ∉ s.tracks_to_remove →
        (toggleAll s [i, i]).current_default = none)) ∧
    processCanon 2 { tracks_to_remove := ∅, current_default := some 0 } (canon ("1 1")) =
      CmdOutcome.cont { tracks_to_remove := ∅, current_default := none } := by
  refine ⟨?_, rfl⟩
  intro s i
  simp only [toggleAll, List.foldl]
  by_cases hin : i ∈ s.tracks_to_remove
  · have h2 : i ∉ s.tracks_to_remove.erase i := Finset.not_mem_erase i _
    simp only [toggleOne, if_pos hin, if_neg h2]
    constructor
    · simp [Finset.insert_erase hin]
    · intro _ habs
      exact absurd hin habs
  · have h2 : i ∈ insert i s.tracks_to_remove := Finset.mem_insert_self i _
    simp only [toggleOne, if_neg hin, if_pos h2]
    constructor
    · simp [Finset.erase_insert hin]
    · intro hd _
      simp [hd]

/-- Witness for C10 at a concrete state: default index 0, empty removal
set, double toggle of 0 clears the default. -/
theorem c10_witness :
    ({ tracks_to_remove := ∅, current_default := some 0 } : SessState).current_default = some 0 ∧
    (toggleAll { tracks_to_remove := ∅, current_default := some 0 } [0, 0]).current_default =
      none :=
  ⟨rfl, (c10_double_toggle_clears_default.1
      { tracks_to_remove := ∅, current_default := some 0 } 0).2 rfl (by decide)⟩

/-- C5: an interactive session default is resolved against the pre-filter
track list and verified by backend id against the kept list; whenever
`analyze_and_select_tracks` reports a selection with a default track, that
default track is an element of the selected kept list, and the underlying
resolution function only ever returns elements of the kept list. -/
theorem c5_reported_default_is_kept :
    (∀ (all_tracks selected : List AudioTrack) (default_index : Option Nat) (t : AudioTrack),
      resolveDefaultTrack all_tracks selected default_index = some t → t ∈ selected) ∧
    (∀ (config : Option LangFilterConfig) (f : FileInput) (selected : List AudioTrack)
        (d : Option AudioTrack) (t : AudioTrack),
      analyzeFile config false f = AnalyzeOutcome.success selected d →
      d = some t → t ∈ selected) := by
  have hres : ∀ (all_tracks selected : List AudioTrack) (default_index : Option Nat)
      (t : AudioTrack),
      resolveDefaultTrack all_tracks selected default_index = some t → t ∈ selected := by
    intro all_tracks selected default_index t h
    cases default_index with
    | none => exact absurd h (by simp [resolveDefaultTrack])
    | some i =>
      rw [resolveDefaultTrack] at h
      cases hget : all_tracks.get? i with
      | none => rw [hget] at h; exact absurd h (by simp)
      | some original =>
        rw [hget] at h
        exact List.mem_of_find?_eq_some h
  refine ⟨hres, ?_⟩
  intro config f selected d t hana hd
  by_cases hempty : f.audio_tracks = []
  · rw [analyzeFile.eq_def, if_pos hempty] at hana
    exact absurd hana (by simp)
  · rw [analyzeFile.eq_def, if_neg hempty] at hana
    simp only [Bool.false_eq_true, if_false] at hana
    cases hsess : select_tracks_to_keep f.audio_tracks config none f.events with
    | cancelled => rw [hsess] at hana; exact absurd hana (by simp)
    | aborted => rw [hsess] at hana; exact absurd hana (by simp)
    | uncaught => rw [hsess] at hana; exact absurd hana (by simp)
    | finished kept didx asked =>
      simp only [hsess] at hana
      by_cases hk : kept = []
      · rw [if_pos hk] at hana
        exact absurd hana (by simp)
      · rw [if_neg hk] at hana
        by_cases hall : kept.length = f.audio_tracks.length
        · rw [if_pos hall] at hana
          exact absurd hana (by simp)
        · rw [if_neg hall] at hana
          injection hana with hsel hdef
          subst hsel
          subst hdef
          exact hres f.audio_tracks kept didx t hd

/-- Witness for C5 at a concrete resolution: index 1 of the pre-filter list
resolves by backend id into the kept list. -/
theorem c5_witness :
    resolveDefaultTrack [trackEng1, trackJpn2] [trackJpn2] (some 1) = some trackJpn2 ∧
    trackJpn2 ∈ [trackJpn2] :=
  ⟨rfl, c5_reported_default_is_kept.1 [trackEng1, trackJpn2] [trackJpn2] (some 1) trackJpn2 rfl⟩

theorem audioFinish_empty_asked (tracks : List AudioTrack) (s : SessState) (rest : List Ev)
    (kept : List AudioTrack) (d : Option Nat) (a : Bool)
    (h : audioFinish tracks s rest = SessOutcome.finished kept d a) (hk : kept = []) :
    a = true := by
  simp only [audioFinish] at h
  by_cases hk0 : keptOf tracks s.tracks_to_remove = []
  · rw [if_pos hk0] at h
    cases rest with
    | nil => exact absurd h (by simp)
    | cons ev rest2 =>
      cases ev with
      | line ans =>
        replace h : (if canon ans = ['y'] ∨ canon ans = ['y', 'e', 's'] then
            finalizeSelection tracks s true
          else SessOutcome.finished [] none true) = SessOutcome.finished kept d a := h
        by_cases hy : canon ans = ['y'] ∨ canon ans = ['y', 'e', 's']
        · rw [if_pos hy] at h
          simp only [finalizeSelection] at h
          injection h with h1 h2 h3
          exact h3.symm
        · rw [if_neg hy] at h
          injection h with h1 h2 h3
          exact h3.symm
      | interrupt => exact absurd h (by simp)
      | eof => exact absurd h (by simp)
  · rw [if_neg hk0] at h
    simp only [finalizeSelection] at h
    injection h with h1 h2 h3
    exact absurd (h1.trans hk) hk0

theorem audioLoop_empty_finished_asked (tracks : List AudioTrack) :
    ∀ (events : List Ev) (s : SessState) (kept : List AudioTrack) (d : Option Nat) (a : Bool),
      audioLoop tracks s events = SessOutcome.finished kept d a → kept = [] → a = true := by
  intro events
  induction events with
  | nil =>
    intro s kept d a h hk
    exact absurd h (by simp [audioLoop])
  | cons ev rest ih =>
    intro s kept d a h hk
    cases ev with
    | interrupt => exact absurd h (by simp [audioLoop])
    | eof => exact absurd h (by simp [audioLoop])
    | line raw =>
      cases hcmd : processLine tracks.length s raw with
      | quit =>
        simp only [audioLoop, hcmd] at h
        exact absurd h (by simp)
      | next =>
        simp only [audioLoop, hcmd] at h
        exact audioFinish_empty_asked tracks s rest kept d a h hk
      | cont s2 =>
        simp only [audioLoop, hcmd] at h
        exact ih s2 kept d a h hk

/-- C2 (amended): in the audio session, a selection finalized through the
next command with an empty kept set always goes through the remove-all
confirmation prompt (`asked = true`); the subtitle session has no such
prompt and finalizes an empty kept set without asking, as the
counterexample shows. -/
theorem c2_audio_empty_kept_requires_confirmation :
    ∀ (tracks : List AudioTrack) (config : Option LangFilterConfig)
      (default_track_index : Option Nat) (events : List Ev)
      (kept : List AudioTrack) (d : Option Nat) (asked : Bool),
      tracks ≠ [] →
      select_tracks_to_keep tracks config default_track_index events =
        SessOutcome.finished kept d asked →
      kept = [] → asked = true := by
  intro tracks config dti events kept d asked hne h hk
  rw [select_tracks_to_keep, if_neg hne] at h
  exact audioLoop_empty_finished_asked tracks events _ kept d asked h hk

/-- Counterexample to C2 as stated: the subtitle session, with its single
track toggled for removal and the next command issued, finalizes an empty
kept list without ever asking for confirmation (the asked flag is false and
no confirmation answer is consumed). -/
theorem c2_counterexample_subtitle_no_confirmation :
    select_subtitle_tracks_to_keep [trackEng1] none none [Ev.line ("1"), Ev.line ("n")] =
      SessOutcome.finished [] none false := rfl

/-- Witness for the amended C2: a concrete audio session that empties the
kept set, receives the confirmation prompt and an affirmative answer. -/
theorem c2_witness :
    ([trackEng1] : List AudioTrack) ≠ [] ∧ (true : Bool) = true :=
  ⟨by decide,
   c2_audio_empty_kept_requires_confirmation [trackEng1] none none
     [Ev.line ("1"), Ev.line ("n"), Ev.line ("y")] [] none true (by decide) (by rfl) rfl⟩

theorem phase1_cancelled_of_earlier_files (config : Option LangFilterConfig) (non_interactive : Bool)
    (pre : List FileInput) (f : FileInput) (post : List FileInput)
    (h2 : ∀ g ∈ pre, analyzeFile config non_interactive g ≠ AnalyzeOutcome.raisedInterrupt)
    (hf : analyzeFile config non_interactive f = AnalyzeOutcome.cancelledErr) :
    phase1 config non_interactive (pre ++ f :: post) = Phase1Res.cancelled := by
  induction pre with
  | nil => simp only [List.nil_append, phase1, hf]
  | cons g pre ih =>
    have hg2 := h2 g (List.mem_cons_self g pre)
    have ih' := ih (fun x hx => h2 x (List.mem_cons_of_mem g hx))
    simp only [List.cons_append, phase1, List.append_eq]
    cases hg : analyzeFile config non_interactive g with
    | cancelledErr => rfl
    | raisedInterrupt => exact absurd hg hg2
    | success sel d => rw [ih']
    | skippedNoTracks => exact ih'
    | skippedNoSelection => exact ih'
    | skippedAllSelected => exact ih'

theorem mainRun_userCancelled_of_phase1 (config : Option LangFilterConfig)
    (files : List FileInput) (h : phase1 config false files = Phase1Res.cancelled) :
    mainRun config false files = RunOutcome.userCancelled := by
  simp only [mainRun, Bool.false_and, Bool.false_eq_true, if_false, h]

theorem analyzeFile_interrupt_skips (config : Option LangFilterConfig) (f : FileInput)
    (rest : List Ev) (hne : f.audio_tracks ≠ []) (hev : f.events = Ev.interrupt :: rest) :
    analyzeFile config false f = AnalyzeOutcome.skippedNoSelection := by
  rw [analyzeFile.eq_def, if_neg hne]
  simp only [Bool.false_eq_true, if_false]
  rw [select_tracks_to_keep, if_neg hne, hev]
  rfl

theorem phase1_skip_append (config : Option LangFilterConfig) (non_interactive : Bool)
    (pre : List FileInput) (f : FileInput) (post : List FileInput)
    (hf : analyzeFile config non_interactive f = AnalyzeOutcome.skippedNoSelection) :
    phase1 config non_interactive (pre ++ f :: post) = phase1 config non_interactive (pre ++ post) := by
  induction pre with
  | nil =>
    simp only [List.nil_append]
    simp only [phase1, hf]
  | cons g pre ih =>
    simp only [List.cons_append, phase1, List.append_eq]
    rw [ih]

/-- C3 (amended): an explicit quit command during Phase 1 aborts the whole
batch (a `UserCancelledError` makes `main` return before Phase 2, so no
recorded selection is processed), but a `KeyboardInterrupt` during a file's
interactive session is caught inside the session, treated as a skip of that
file only, and the batch continues: the remaining analysis runs and every
previously recorded selection is still processed in Phase 2. -/
theorem c3_quit_aborts_interrupt_skips :
    (∀ (config : Option LangFilterConfig) (non_interactive : Bool)
        (pre : List FileInput) (f : FileInput) (post : List FileInput),
      (∀ g ∈ pre, analyzeFile config non_interactive g ≠ AnalyzeOutcome.raisedInterrupt) →
      analyzeFile config non_interactive f = AnalyzeOutcome.cancelledErr →
      phase1 config non_interactive (pre ++ f :: post) = Phase1Res.cancelled) ∧
    (∀ (config : Option LangFilterConfig) (files : List FileInput),
      phase1 config false files = Phase1Res.cancelled →
      mainRun config false files = RunOutcome.userCancelled) ∧
    (∀ (tracks : List AudioTrack) (s : SessState) (evs : List Ev),
      audioLoop tracks s (Ev.interrupt :: evs) = SessOutcome.aborted) ∧
    (∀ (config : Option LangFilterConfig) (f : FileInput) (rest : List Ev),
      f.audio_tracks ≠ [] → f.events = Ev.interrupt :: rest →
      analyzeFile config false f = AnalyzeOutcome.skippedNoSelection) ∧
    (∀ (config : Option LangFilterConfig) (non_interactive : Bool)
        (pre : List FileInput) (f : FileInput) (post : List FileInput),
      analyzeFile config non_interactive f = AnalyzeOutcome.skippedNoSelection →
      phase1 config non_interactive (pre ++ f :: post) =
        phase1 config non_interactive (pre ++ post)) :=
  ⟨phase1_cancelled_of_earlier_files, mainRun_userCancelled_of_phase1,
   fun _ _ _ => rfl, analyzeFile_interrupt_skips, phase1_skip_append⟩

/-- Counterexample to C3 as stated: with the first file's selection already
recorded, an interrupt signal during the second file's session does not
abort the batch; the run completes and Phase 2 still attempts the first
file's recorded selection, while the interrupted file is merely skipped. -/
theorem c3_counterexample_interrupt_not_batch_abort :
    mainRun none false [fileSelect, fileInterrupt] =
      RunOutcome.completed [([trackJpn2], none)] ∧
    analyzeFile none false fileInterrupt = AnalyzeOutcome.skippedNoSelection :=
  ⟨rfl, rfl⟩

/-- Witness for the amended C3: a concrete batch whose only file issues the
quit command is cancelled as a whole with nothing processed. -/
theorem c3_witness :
    analyzeFile none false fileQuit = AnalyzeOutcome.cancelledErr ∧
    mainRun none false [fileQuit] = RunOutcome.userCancelled :=
  ⟨rfl,
   c3_quit_aborts_interrupt_skips.2.1 none [fileQuit]
     (c3_quit_aborts_interrupt_skips.1 none false [] fileQuit []
       (fun g hg => absurd hg (List.not_mem_nil g)) rfl)⟩

/-- C8 (amended): when non-interactive mode is requested and the rule set
has no rules, `main` exits with a validation error before Phase 1, for any
file list, so no file is analyzed; the per-file fallback inside
`analyze_and_select_tracks` (skip the file) exists but is only reachable
through callers that bypass the gate in `main`. -/
theorem c8_no_rules_non_interactive_exits_before_batch :
    (∀ (config : Option LangFilterConfig) (files : List FileInput),
      hasRulesOpt config = false → mainRun config true files = RunOutcome.validationError) ∧
    (∀ (config : Option LangFilterConfig) (f : FileInput),
      hasRulesOpt config = false → f.audio_tracks ≠ [] →
      analyzeFile config true f = AnalyzeOutcome.skippedNoSelection) := by
  constructor
  · intro config files h
    simp [mainRun, h]
  · intro config f h hne
    rw [analyzeFile.eq_def, if_neg hne]
    simp [h]

/-- Counterexample to C8 as stated: with an empty rule set (or no
configuration at all) and non-interactive mode, the run ends in the
pre-Phase-1 validation error exit, not in a started batch with per-file
skips. -/
theorem c8_counterexample_gate_exits_first :
    mainRun (some cfgEmpty) true [fileSelect] = RunOutcome.validationError ∧
    mainRun none true [fileSelect, fileInterrupt] = RunOutcome.validationError :=
  ⟨rfl, rfl⟩

/-- Witness for the amended C8 at a concrete empty configuration. -/
theorem c8_witness :
    hasRulesOpt (some cfgEmpty) = false ∧
    mainRun (some cfgEmpty) true [fileQuit] = RunOutcome.validationError :=
  ⟨rfl, c8_no_rules_non_interactive_exits_before_batch.1 (some cfgEmpty) [fileQuit] rfl⟩

/-- C1: the remux step cannot satisfy the claimed contract. The function
`remove_unwanted_tracks` in `processor.py` accepts three positional
parameters and builds a command that always copies all subtitle tracks and
passes no default-track ids, while its call site in `main.py` passes six
positional arguments (kept audio tracks, output path, kept subtitle tracks
and both default-track ids), so the call raises a `TypeError` before any
remux tool invocation. -/
theorem c1_remux_arity_mismatch :
    remove_unwanted_tracks_params.length = 3 ∧
    process_file_with_selection_call_args.length = 6 ∧
    remove_unwanted_tracks_params.length < process_file_with_selection_call_args.length ∧
    (∀ (output_file input_file : String) (tracks_to_keep : List AudioTrack),
      ("--subtitle-tracks") ∈ mkvmergeCmd output_file tracks_to_keep input_file ∧
        ("all") ∈ mkvmergeCmd output_file tracks_to_keep input_file) := by
  refine ⟨rfl, rfl, by decide, ?_⟩
  intro output_file input_file tracks_to_keep
  constructor <;> simp [mkvmergeCmd]
